import Mathlib

/-!
Verification of the Excel-summarizer core (`excel_summarizer_app.py`).

This file shallowly embeds the business-rule functions of the program —
`normalize_for_match`, the `MAPPING` alias table, `fallback_shorten`,
`determine_party_short`, and the grouping/aggregation transform
`summarize_df` — as executable Lean definitions, and proves the frozen
claims about them.

Modelling conventions:
* A cell is a `Value`: a string, a number, or the missing marker `Value.na`
  (pandas' float NaN; empty spreadsheet cells are read as NaN).
* Numbers are exact rationals `ℚ`.  Python floats are binary, so float
  arithmetic, `round(x, 2)` tie-breaking, and `repr` of a float are
  idealized to exact rational arithmetic; every concrete input used below
  has short decimal values for which the two agree.
* A pandas DataFrame is a `Table`: a column-name list plus rows, each row a
  list of cell values positionally aligned with the columns.  In-place
  DataFrame mutation (`df[c] = ...`) is modelled by explicit state passing:
  `summarize_df` returns the result, and `inputStateAfter` is the state of
  the caller's DataFrame after the call returns.
-/

/-! ### Python character/string primitives -/

/-- Whitespace characters stripped by Python `str.strip` and matched by the
regex class `\s` (ASCII range, which covers the data here). -/
def pyIsSpace (c : Char) : Bool :=
  c == ' ' || c == '\t' || c == '\n' || c == '\r' || c == '\x0b' || c == '\x0c'

/-- Python `str.strip` on a character list: drop whitespace from both ends. -/
def pyStripList (l : List Char) : List Char :=
  ((l.dropWhile pyIsSpace).reverse.dropWhile pyIsSpace).reverse

/-- Python `str.strip`. -/
def pyStrip (s : String) : String := String.mk (pyStripList s.toList)

/-- Python `str.upper` (ASCII; the alias table and sample data are ASCII). -/
def pyUpper (s : String) : String := String.mk (s.toList.map Char.toUpper)

/-- Characters kept by `re.sub(r'[^A-Z0-9]+', '', ...)`: ASCII upper-case
letters and digits. -/
def isUpperAlnum (c : Char) : Bool :=
  ('A' ≤ c && c ≤ 'Z') || ('0' ≤ c && c ≤ '9')

/-- Word characters of the regex `\b` boundary (`[A-Za-z0-9_]`, ASCII). -/
def isWordChar (c : Char) : Bool :=
  ('A' ≤ c && c ≤ 'Z') || ('a' ≤ c && c ≤ 'z') || ('0' ≤ c && c ≤ '9') || c == '_'

/-- Is `needle` a prefix of `hay`? (helper for the Python `in` operator). -/
def prefixSeq : List Char → List Char → Bool
  | [], _ => true
  | _ :: _, [] => false
  | a :: as, b :: bs => a == b && prefixSeq as bs

/-- Python's substring test `needle in hay` on character lists. -/
def hasSubSeq (needle : List Char) : List Char → Bool
  | [] => needle.isEmpty
  | c :: cs => prefixSeq needle (c :: cs) || hasSubSeq needle cs

/-- Python's substring test `needle in hay` on strings. -/
def pyIn (needle hay : String) : Bool := hasSubSeq needle.toList hay.toList

/-! ### Cell values -/

/-- A DataFrame cell: a string, a (float) number, or missing (NaN). -/
inductive Value where
  | str (s : String)
  | num (q : ℚ)
  | na
deriving DecidableEq

/-- Fractional decimal digits of `r / d` (`0 ≤ r < d`), most significant
first, stopping when the remainder hits zero (so trailing zeros are
dropped, as Python float `repr` does); `fuel` caps the length at the 17
significant digits a float `repr` can produce. -/
def decDigits : Nat → Nat → Nat → List Char
  | 0, _, _ => []
  | _ + 1, 0, _ => []
  | fuel + 1, r, d =>
    Char.ofNat (48 + r * 10 / d) :: decDigits fuel (r * 10 % d) d

/-- Python `str` of a float value: sign, integer part, `'.'`, fractional
digits (at least one, `"2.0"`-style).  Exact-decimal idealization of the
float `repr`; the claims never depend on its fine formatting. -/
def pyStrNum (q : ℚ) : String :=
  let n := q.num.natAbs
  let d := q.den
  let frac := decDigits 17 (n % d) d
  (if q < 0 then "-" else "") ++ toString (n / d) ++ "." ++
    (if frac.isEmpty then "0" else String.mk frac)

/-- Python `str` of a cell value, as produced by `astype(str)` / `str(x)`:
strings are unchanged, NaN prints as `"nan"`, floats print as their
decimal form. -/
def pyStr : Value → String
  | .str s => s
  | .num q => pyStrNum q
  | .na => "nan"

/-! ### `normalize_for_match` and the alias table -/

/-- `normalize_for_match`: upper-case and keep only ASCII letters/digits
(`re.sub(r'[^A-Z0-9]+', '', str(s).upper())`).  The source's `s is None`
branch is unreachable for DataFrame cells (missing cells are NaN, whose
`str` is `"nan"`), so the `Value.na` case goes through the same path. -/
def normalize_for_match (v : Value) : String :=
  String.mk (((pyStr v).toList.map Char.toUpper).filter isUpperAlnum)

/-- The `MAPPING` alias table, verbatim from the source. -/
def MAPPING : List (String × String) := [
  ("AKZO NOBEL", "AKZO NOBEL"),
  ("AKZO NOBEL INDIA LTD", "AKZO NOBEL"),
  ("ASIAN PAINTS", "ASIAN"),
  ("ESDEE PAINTS", "ESDEE"),
  ("INDIGO PAINTS", "INDIGO"),
  ("SIMPSON & CO", "SIMPSON"),
  ("APC-DIVISION", "SIMPSON"),
  ("VEENA PAINTS", "VEENA"),
  ("T.A.L.C.ANNAMALAI NADAR", "T.A.L.C"),
  ("UTTAM ELECTRONICS", "UTTAM"),
  ("GEETHA PAINTS", "GEETHA PAINTS"),
  ("BALAJI INDUSTRIES", "BALAJI IND"),
  ("T.A.L.C.A.SATCHITHANANTHAM", "T.A.L.C.A.SA"),
  ("SPECTRUM SURFACE SOLUTIONS", "SPECTRUM"),
  ("GLOBAL PAINTS", "GLOBAL PAINTS"),
  ("JPJ AGENCIES", "JPJ AGENCIES"),
  ("SRI VELAVAN TRADERS", "SRI VELAVAN"),
  ("ASCKANIA CHEMICALS", "ASCKANIA"),
  ("SRI MARUTI EXPORTS", "SRI MARUTI"),
  ("SREE VALAMPURI AGENCIES", "SREE VALAMPURI"),
  ("SENTHIL CORPORATION", "SENTHIL CORP"),
  ("SENTHI AGENCY", "SENTHI AGENCY"),
  ("SRI ANDAL SALES CORPORATION", "SRI ANDAL"),
  ("JOTHI TRADERS", "JOTHI TRADERS"),
  ("GANESH ENTERPRISES", "GANESH EP"),
  ("NIVIN BRUSH", "NIVIN BRUSH")]

/-- `MAPPING_NORMALIZED = [(normalize_for_match(k), v) for k, v in MAPPING]`. -/
def MAPPING_NORMALIZED : List (String × String) :=
  MAPPING.map fun p => (normalize_for_match (.str p.1), p.2)

/-- The loop of `determine_party_short`: first entry whose (nonempty)
normalized key is a substring of `norm` wins; its short name is
upper-cased (`short.upper()`). -/
def lookupAlias (norm : String) : List (String × String) → Option String
  | [] => none
  | (k, v) :: rest =>
    if (k != "") && pyIn k norm then some (pyUpper v) else lookupAlias norm rest

/-! ### `fallback_shorten` -/

/-- `SUFFIX_WORDS`, verbatim from the source. -/
def SUFFIX_WORDS : List String :=
  ["INDIA", "LTD", "LIMITED", "PVT", "PRIVATE", "COMPANY", "CO",
   "PVT.", "LTD.", "PVT LTD", "DIVISION", "APC", "APC-DIVISION"]

/-- The alternatives of `SUFFIX_RE` as character lists, in declaration
order (regex alternation tries them left to right). -/
def suffixPats : List (List Char) := SUFFIX_WORDS.map String.toList

/-- Match the (upper-case) pattern `ps` case-insensitively at the head of
the input, returning the rest on success. -/
def matchPat : List Char → List Char → Option (List Char)
  | [], l => some l
  | _ :: _, [] => none
  | p :: ps, c :: cs => if c.toUpper == p then matchPat ps cs else none

/-- The `\b` assertion right after a match: the word-ness of the last
matched character must differ from that of the following character (end of
input counts as non-word). -/
def boundaryAfter (lastIsWord : Bool) (rest : List Char) : Bool :=
  lastIsWord != (match rest with | c :: _ => isWordChar c | [] => false)

/-- Try the regex alternatives in order at the current position; on a
match whose trailing `\b` holds, return the word-ness of the last matched
character and the remaining input (regex alternation falls through to the
next alternative when the boundary fails). -/
def tryWords (l : List Char) : List (List Char) → Option (Bool × List Char)
  | [] => none
  | w :: ws =>
    match matchPat w l with
    | some rest =>
      if boundaryAfter (isWordChar (w.getLastD ' ')) rest then
        some (isWordChar (w.getLastD ' '), rest)
      else tryWords l ws
    | none => tryWords l ws

/-- `SUFFIX_RE.sub("", s)`: scan left to right; at a position whose left
context is a `\b` boundary (tracked by `prevIsWord`; every alternative
starts with a letter, so a match can only start after a non-word
character or at the start), remove the first matching alternative and
continue after it.  `fuel ≥ length` makes the recursion structural. -/
def suffixSubAux : Nat → Bool → List Char → List Char
  | 0, _, l => l
  | _ + 1, _, [] => []
  | fuel + 1, prevIsWord, c :: cs =>
    if prevIsWord then c :: suffixSubAux fuel (isWordChar c) cs
    else
      match tryWords (c :: cs) suffixPats with
      | some (lw, rest) => suffixSubAux fuel lw rest
      | none => c :: suffixSubAux fuel (isWordChar c) cs

/-- `SUFFIX_RE.sub("", s)` (whole-word, case-insensitive removal of the
suffix words). -/
def suffixSub (l : List Char) : List Char := suffixSubAux l.length false l

/-- Find the first `')'` (a `'\n'` blocks the match, since `.` does not
match newlines), returning what follows it. -/
def splitClose : List Char → Option (List Char)
  | [] => none
  | c :: cs => if c == ')' then some cs else if c == '\n' then none else splitClose cs

/-- `re.sub(r'\(.*?\)', '', s)`: from each `'('` that is followed by a
`')'` (with no newline between), remove through the nearest such `')'`;
a `'('` with no reachable `')'` is kept. -/
def removeParensAux : Nat → List Char → List Char
  | 0, l => l
  | _ + 1, [] => []
  | fuel + 1, c :: cs =>
    if c == '(' then
      match splitClose cs with
      | some rest => removeParensAux fuel rest
      | none => c :: removeParensAux fuel cs
    else c :: removeParensAux fuel cs

/-- `re.sub(r'\(.*?\)', '', s)`. -/
def removeParens (l : List Char) : List Char := removeParensAux l.length l

/-- `if ch in s: s = s.split(ch, 1)[0].strip()`: keep the (stripped) text
before the first occurrence of `ch`, when `ch` occurs at all. -/
def cutAt (ch : Char) (l : List Char) : List Char :=
  if l.contains ch then pyStripList (l.takeWhile (· != ch)) else l

/-- `re.sub(r'\s{2,}', ' ', s)`: collapse each run of two or more
whitespace characters into a single space (a lone whitespace character is
left as it is). -/
def collapseSpacesAux : Nat → List Char → List Char
  | 0, l => l
  | _ + 1, [] => []
  | fuel + 1, c :: cs =>
    if pyIsSpace c then
      match cs with
      | c2 :: _ =>
        if pyIsSpace c2 then ' ' :: collapseSpacesAux fuel (cs.dropWhile pyIsSpace)
        else c :: collapseSpacesAux fuel cs
      | [] => [c]
    else c :: collapseSpacesAux fuel cs

/-- `re.sub(r'\s{2,}', ' ', s)`. -/
def collapseSpaces (l : List Char) : List Char := collapseSpacesAux l.length l

/-- The stripping pipeline of `fallback_shorten` before the final
upper-case/default step: strip, drop parenthesized spans, cut at the
first hyphen, cut at the first slash, drop suffix words, collapse
whitespace runs. -/
def fallbackSteps (orig : List Char) : List Char :=
  let s1 := removeParens (pyStripList orig)
  let s2 := cutAt '-' s1
  let s3 := cutAt '/' s2
  let s4 := pyStripList (suffixSub s3)
  pyStripList (collapseSpaces s4)

/-- `fallback_shorten`: missing input gives `""`; otherwise run the
stripping pipeline and upper-case the result, falling back to the
upper-cased stripped original when everything was stripped away. -/
def fallback_shorten (v : Value) : String :=
  match v with
  | .na => ""
  | _ =>
    let orig := (pyStr v).toList
    let s := fallbackSteps orig
    if s.isEmpty then String.mk ((pyStripList orig).map Char.toUpper)
    else String.mk (s.map Char.toUpper)

/-- `determine_party_short`: try the normalized alias table in order,
falling back to `fallback_shorten`. -/
def determine_party_short (v : Value) : String :=
  match lookupAlias (normalize_for_match v) MAPPING_NORMALIZED with
  | some s => s
  | none => fallback_shorten v

/-! ### Numeric coercion (`pd.to_numeric(..., errors='coerce').fillna(0)`) -/

/-- Are all characters ASCII digits? -/
def allDigits (l : List Char) : Bool := l.all Char.isDigit

/-- Numeric value of a digit string (most significant first). -/
def digitsToNat : List Char → Nat → Nat
  | [], acc => acc
  | c :: cs, acc => digitsToNat cs (acc * 10 + (c.toNat - 48))

/-- Split off an optional leading sign; `true` means negative. -/
def parseSign : List Char → Bool × List Char
  | '+' :: cs => (false, cs)
  | '-' :: cs => (true, cs)
  | cs => (false, cs)

/-- Split at the first `'e'`/`'E'` (mantissa, optional exponent text). -/
def splitOnExpChar : List Char → List Char × Option (List Char)
  | [] => ([], none)
  | c :: cs =>
    if c == 'e' || c == 'E' then ([], some cs)
    else
      let (a, b) := splitOnExpChar cs
      (c :: a, b)

/-- Split at the first `'.'` (integer part, optional fractional text). -/
def splitOnDot : List Char → List Char × Option (List Char)
  | [] => ([], none)
  | c :: cs =>
    if c == '.' then ([], some cs)
    else
      let (a, b) := splitOnDot cs
      (c :: a, b)

/-- Parse a signed decimal exponent. -/
def parseExp (l : List Char) : Option Int :=
  let (neg, rest) := parseSign l
  if rest ≠ [] ∧ allDigits rest then
    some (if neg then -(digitsToNat rest 0 : Int) else (digitsToNat rest 0 : Int))
  else none

/-- Parse a Python float literal (as accepted by `float` / `pd.to_numeric`):
optional surrounding whitespace and sign, digits with an optional decimal
point (at least one digit), optional exponent.  The special texts
`inf`/`nan` are not produced as numbers — a NaN result is zeroed by the
subsequent `fillna(0)` anyway. -/
def parsePyFloat (s : String) : Option ℚ :=
  let l := pyStripList s.toList
  let (neg, l1) := parseSign l
  let (mant, expPart) := splitOnExpChar l1
  let (ipart, fpartOpt) := splitOnDot mant
  let fpart := fpartOpt.getD []
  if allDigits ipart ∧ allDigits fpart ∧ (ipart ≠ [] ∨ fpart ≠ []) then
    let mag : ℚ := (digitsToNat ipart 0 : ℚ) + (digitsToNat fpart 0 : ℚ) / ((10 : ℚ) ^ fpart.length)
    let signed : ℚ := if neg then -mag else mag
    match expPart with
    | none => some signed
    | some e =>
      match parseExp e with
      | some z => some (signed * (10 : ℚ) ^ (z : ℤ))
      | none => none
  else none

/-- `s.str.replace(',', '')` (literal, all occurrences). -/
def removeCommas (s : String) : String := String.mk (s.toList.filter (· != ','))

/-- Rational value of
`pd.to_numeric(cell.astype(str).str.replace(',', ''), errors='coerce').fillna(0)`
on one cell: a float round-trips through `str` unchanged (and has no
commas), NaN's string `"nan"` parses to NaN and is zeroed by `fillna`, and
an unparseable string coerces to 0. -/
def coerceQ : Value → ℚ
  | .num q => q
  | .na => 0
  | .str s => (parsePyFloat (removeCommas s)).getD 0

/-- The coerced cell stored back into the column (a float). -/
def coerceCell (v : Value) : Value := .num (coerceQ v)

/-- `df['GSTIN'].astype(str).replace('nan', '')` on one cell: string form,
with an exact `"nan"` replaced by the empty string. -/
def gstinStr (v : Value) : String :=
  let s := pyStr v
  if s = "nan" then "" else s

/-- Python `round(x, 2)` (exact-decimal idealization of the float
rounding; all values compared in the claims are away from ties). -/
def round2 (q : ℚ) : ℚ := (Rat.floor (q * 100 + 1 / 2) : ℚ) / 100

/-- `float(x)` of a cell of a numeric column when summing (after step 1
these cells are always floats). -/
def valQ : Value → ℚ
  | .num q => q
  | _ => 0

/-! ### Tables and `summarize_df` -/

/-- A DataFrame: ordered column names, and rows positionally aligned with
them.  The data model keeps column names distinct and rows exactly as
wide as the column list. -/
structure Table where
  cols : List String
  rows : List (List Value)
deriving DecidableEq

/-- Cell of row `r` at column `c` (first matching column name). -/
def cellOf (cols : List String) (r : List Value) (c : String) : Value :=
  match cols.findIdx? (· == c) with
  | some i => r.getD i .na
  | none => .na

/-- Cell access on a table's own columns. -/
def Table.cell (t : Table) (r : List Value) (c : String) : Value :=
  cellOf t.cols r c

/-- Well-formedness from the data model: every row has exactly the
table's columns. -/
def Table.WF (t : Table) : Prop := ∀ r ∈ t.rows, r.length = t.cols.length

/-- Row update of `df[c] = series`: overwrite the existing column in
place, or append a new one on the right. -/
def updRow (cols : List String) (c : String) (f : List Value → Value)
    (r : List Value) : List Value :=
  match cols.findIdx? (· == c) with
  | some i => r.set i (f r)
  | none => r ++ [f r]

/-- Column list after `df[c] = series`. -/
def updCols (cols : List String) (c : String) : List String :=
  match cols.findIdx? (· == c) with
  | some _ => cols
  | none => cols ++ [c]

/-- `df[c] = df.apply(f)`: set or append column `c`, each row's new value
computed from the row. -/
def updCol (t : Table) (c : String) (f : List Value → Value) : Table :=
  ⟨updCols t.cols c, t.rows.map (updRow t.cols c f)⟩

/-- `df.columns = [c.strip() for c in df.columns]`. -/
def stripHeaders (t : Table) : Table := ⟨t.cols.map pyStrip, t.rows⟩

/-- The five designated numeric columns. -/
def num_cols : List String := ["TAXABLE", "IGST", "CGST", "SGST", "NETAMOUNT"]

/-- One iteration of the numeric-coercion loop: coerce column `c` in
place when present; `df[c] = 0` otherwise appends a zero column (a
missing column's cell reads as NaN, which coerces to 0). -/
def coerceStep (t : Table) (c : String) : Table :=
  updCol t c fun r => coerceCell (t.cell r c)

/-- The numeric-coercion loop over the five designated columns. -/
def coerceNumCols (t : Table) : Table := num_cols.foldl coerceStep t

/-- `df['Party_Short'] = df['Party'].apply(determine_party_short)`. -/
def addPartyShort (t : Table) : Table :=
  updCol t "Party_Short" fun r => .str (determine_party_short (t.cell r "Party"))

/-- `df['GSTIN'] = df['GSTIN'].astype(str).replace('nan', '')`. -/
def normGSTIN (t : Table) : Table :=
  updCol t "GSTIN" fun r => .str (gstinStr (t.cell r "GSTIN"))

/-- The fully mutated DataFrame right before the output is assembled
(headers stripped, numeric columns coerced, `Party_Short` added, `GSTIN`
normalized). -/
def processTable (t : Table) : Table :=
  normGSTIN (addPartyShort (coerceNumCols (stripHeaders t)))

/-- The (Party_Short, GSTIN) pair of one row, as read by
`zip(df['Party_Short'], df['GSTIN'])` and by the group mask. -/
def rowKey (cols : List String) (r : List Value) : String × String :=
  (pyStr (cellOf cols r "Party_Short"), pyStr (cellOf cols r "GSTIN"))

/-- The per-row group keys of a table, in row order. -/
def keysOf (t : Table) : List (String × String) := t.rows.map (rowKey t.cols)

/-- The per-row group keys `summarize_df` groups by, computed on the
processed table. -/
def groupKeys (t : Table) : List (String × String) := keysOf (processTable t)

/-- The `ordered`/`seen` loop: keys in first-seen order. -/
def firstSeenAux (seen : List (String × String)) :
    List (String × String) → List (String × String)
  | [] => []
  | k :: ks =>
    if k ∈ seen then firstSeenAux seen ks else k :: firstSeenAux (k :: seen) ks

/-- `final_cols = [c for c in df.columns if c != 'Party_Short']`. -/
def finalColsOf (t : Table) : List String := t.cols.filter (· ≠ "Party_Short")

/-- An emitted member row: every final column copied from the (processed)
row, except `Party`, which carries the group's short name. -/
def memberRow (cols fc : List String) (ps : String) (r : List Value) : List Value :=
  fc.map fun c => if c = "Party" then .str ps else cellOf cols r c

/-- `float(grp[c].sum())` over the group's rows. -/
def sumCol (cols : List String) (c : String) (rs : List (List Value)) : ℚ :=
  (rs.map fun r => valQ (cellOf cols r c)).sum

/-- The synthesized subtotal row: every final column defaults to `''`;
`GSTIN`/`Party` carry the group key; the five numeric columns carry the
rounded group sums, `IGST`/`CGST`/`SGST` blanked when their rounded sum is
exactly zero; a `TAXPER` column is blanked. -/
def subtotalRow (cols fc : List String) (k : String × String)
    (rs : List (List Value)) : List Value :=
  let sTAX := round2 (sumCol cols "TAXABLE" rs)
  let sIG := round2 (sumCol cols "IGST" rs)
  let sCG := round2 (sumCol cols "CGST" rs)
  let sSG := round2 (sumCol cols "SGST" rs)
  let sNET := round2 (sumCol cols "NETAMOUNT" rs)
  fc.map fun c =>
    if c = "GSTIN" then .str k.2
    else if c = "Party" then .str k.1
    else if c = "TAXABLE" then .num sTAX
    else if c = "TAXPER" then .str ""
    else if c = "IGST" then (if sIG = 0 then .str "" else .num sIG)
    else if c = "CGST" then (if sCG = 0 then .str "" else .num sCG)
    else if c = "SGST" then (if sSG = 0 then .str "" else .num sSG)
    else if c = "NETAMOUNT" then .num sNET
    else .str ""

/-- The `out_rows` loop: for each first-seen group key, the group's rows
(in original order, `Party` replaced) followed by its subtotal row. -/
def outRows (t : Table) : List (List Value) :=
  let fc := finalColsOf t
  (firstSeenAux [] (keysOf t)).flatMap fun k =>
    let g := t.rows.filter fun r => decide (rowKey t.cols r = k)
    g.map (memberRow t.cols fc k.1) ++ [subtotalRow t.cols fc k g]

/-- The final formatting `fmt`: `''` passes through, a parseable value is
rounded to 2 decimals, anything else is left unchanged (`float(nan)` is
NaN and `round` keeps it NaN). -/
def fmtCell : Value → Value
  | .str s =>
    if s = "" then .str ""
    else
      match parsePyFloat s with
      | some q => .num (round2 q)
      | none => .str s
  | .num q => .num (round2 q)
  | .na => .na

/-- `if c in res.columns: res[c] = res[c].apply(fmt)`. -/
def fmtStep (t : Table) (c : String) : Table :=
  match t.cols.findIdx? (· == c) with
  | some i => ⟨t.cols, t.rows.map fun r => r.set i (fmtCell (r.getD i .na))⟩
  | none => t

/-- The final numeric-formatting pass over the five designated columns. -/
def fmtPass (t : Table) : Table := num_cols.foldl fmtStep t

/-- `summarize_df`: strip headers, require `Party` and `GSTIN`, coerce
numerics, resolve short names, normalize `GSTIN`, then emit each group's
rows followed by its subtotal row and run the formatting pass. -/
def summarize_df (t : Table) : Except String Table :=
  let t0 := stripHeaders t
  if "Party" ∈ t0.cols ∧ "GSTIN" ∈ t0.cols then
    let tp := processTable t
    .ok (fmtPass ⟨finalColsOf tp, outRows tp⟩)
  else .error "Input must contain 'Party' and 'GSTIN' columns."

/-- The state of the caller's DataFrame after `summarize_df` returns (or
raises): headers are stripped first; on the success path all in-place
column mutations have happened. -/
def inputStateAfter (t : Table) : Table :=
  let t0 := stripHeaders t
  if "Party" ∈ t0.cols ∧ "GSTIN" ∈ t0.cols then processTable t else t0

/-! ### Claim-side (specification) formulations -/

/-- The group key of one input row, computed directly from the input
table: the resolved short name of its `Party` cell and the normalized
string form of its `GSTIN` cell. -/
def inKey (cols : List String) (r : List Value) : String × String :=
  (determine_party_short (cellOf cols r "Party"), gstinStr (cellOf cols r "GSTIN"))

/-- The designated numeric columns absent from `cols`, in canonical
order. -/
def missingNum (cols : List String) : List String :=
  num_cols.filter fun c => decide (c ∉ cols)

/-- The output column list, described from the input: the trimmed input
columns followed by the absent designated numeric columns, with
`Party_Short` excluded. -/
def specFc (t : Table) : List String :=
  ((stripHeaders t).cols ++ missingNum (stripHeaders t).cols).filter (· ≠ "Party_Short")

/-- A member row as the claims describe it: `Party` carries the short
name, `GSTIN` its normalized string, each designated numeric column its
coerced value rounded to two decimals, and every other column the
untouched input cell. -/
def specMemberRow (cols fc : List String) (k : String × String)
    (r : List Value) : List Value :=
  fc.map fun c =>
    if c = "Party" then .str k.1
    else if c = "GSTIN" then .str k.2
    else if c ∈ num_cols then .num (round2 (coerceQ (cellOf cols r c)))
    else cellOf cols r c

/-- The group sum of a designated column, computed directly from the
input rows' coerced values. -/
def specSumCol (cols : List String) (c : String) (rs : List (List Value)) : ℚ :=
  (rs.map fun r => coerceQ (cellOf cols r c)).sum

/-- A subtotal row as the claims describe it: all columns default to
`''`; the key fields carry the group key; `TAXABLE`/`NETAMOUNT` always
carry the rounded group sum; `IGST`/`CGST`/`SGST` carry it unless the
rounded sum is exactly zero, in which case they are `''`. -/
def specSubtotalRow (cols fc : List String) (k : String × String)
    (rs : List (List Value)) : List Value :=
  fc.map fun c =>
    if c = "GSTIN" then .str k.2
    else if c = "Party" then .str k.1
    else if c = "TAXABLE" then .num (round2 (specSumCol cols "TAXABLE" rs))
    else if c = "TAXPER" then .str ""
    else if c = "IGST" ∨ c = "CGST" ∨ c = "SGST" then
      (if round2 (specSumCol cols c rs) = 0 then .str ""
       else .num (round2 (specSumCol cols c rs)))
    else if c = "NETAMOUNT" then .num (round2 (specSumCol cols "NETAMOUNT" rs))
    else .str ""

/-- The whole output as the claims describe it: one contiguous block per
distinct input group key in first-seen order, each block the group's
member rows in input order followed by its subtotal row. -/
def specOutput (t : Table) : Table :=
  let cols := (stripHeaders t).cols
  let fc := specFc t
  let keys := firstSeenAux [] (t.rows.map (inKey cols))
  ⟨fc, keys.flatMap fun k =>
    let g := t.rows.filter fun r => decide (inKey cols r = k)
    g.map (specMemberRow cols fc k) ++ [specSubtotalRow cols fc k g]⟩

/-! ### Basic lemmas: column lookup and column update -/

theorem findIdxCol_eq_none {cols : List String} {c : String} (h : c ∉ cols) :
    cols.findIdx? (· == c) = none := by
  rw [List.findIdx?_eq_none_iff]
  intro x hx
  exact beq_eq_false_iff_ne.mpr fun e => h (e ▸ hx)

theorem findIdxCol_exists {cols : List String} {c : String} (h : c ∈ cols) :
    ∃ i, cols.findIdx? (· == c) = some i := by
  have : (cols.findIdx? (· == c)).isSome = true := by
    rw [List.findIdx?_isSome, List.any_eq_true]
    exact ⟨c, h, beq_self_eq_true c⟩
  exact Option.isSome_iff_exists.mp this

theorem findIdxCol_found {cols : List String} {c : String} {i : Nat}
    (h : cols.findIdx? (· == c) = some i) :
    ∃ hi : i < cols.length, cols[i] = c := by
  obtain ⟨hi, hp, -⟩ := List.findIdx?_eq_some_iff_getElem.mp h
  exact ⟨hi, eq_of_beq hp⟩

theorem cellOf_not_mem {cols : List String} {r : List Value} {c : String}
    (h : c ∉ cols) : cellOf cols r c = .na := by
  unfold cellOf
  rw [findIdxCol_eq_none h]

/-- Reading a freshly built `fc.map g` row: the cell at a present column
`c` is `g c`, and `.na` at an absent one. -/
theorem cellOf_map_cols (fc : List String) (g : String → Value) (c : String) :
    cellOf fc (fc.map g) c = if c ∈ fc then g c else .na := by
  unfold cellOf
  by_cases h : c ∈ fc
  · obtain ⟨i, hi⟩ := findIdxCol_exists h
    obtain ⟨hlt, hgi⟩ := findIdxCol_found hi
    simp only [hi, if_pos h, List.getD_eq_getElem?_getD, List.getElem?_map,
      List.getElem?_eq_getElem hlt]
    simp [hgi]
  · rw [findIdxCol_eq_none h, if_neg h]

/-- The master update lemma: after `df[c] = series` (computed per row by
`f`), looking up column `c'` in a well-formed row reads `f r` when
`c' = c` and the old cell otherwise. -/
theorem cellOf_updRow {cols : List String} (c : String) (f : List Value → Value)
    {r : List Value} (hr : r.length = cols.length) (c' : String) :
    cellOf (updCols cols c) (updRow cols c f r) c' =
      if c' = c then f r else cellOf cols r c' := by
  unfold updCols updRow cellOf
  cases h : cols.findIdx? (· == c) with
  | some i =>
    obtain ⟨hi, hgi⟩ := findIdxCol_found h
    by_cases hc : c' = c
    · subst hc
      simp only [h, if_pos rfl, List.getD_eq_getElem?_getD,
        List.getElem?_set_self (show i < r.length by omega)]
      rfl
    · rw [if_neg hc]
      cases h' : cols.findIdx? (· == c') with
      | some j =>
        obtain ⟨hj, hgj⟩ := findIdxCol_found h'
        have hij : i ≠ j := fun e => by
          subst e
          rw [hgi] at hgj
          exact hc hgj.symm
        simp only [List.getD_eq_getElem?_getD, List.getElem?_set_ne hij]
      | none => rfl
  | none =>
    by_cases hc : c' = c
    · subst hc
      have happ : (cols ++ [c']).findIdx? (· == c') = some cols.length := by
        rw [List.findIdx?_append, h]
        simp
      simp only [happ, List.getD_eq_getElem?_getD,
        List.getElem?_append_right (show r.length ≤ cols.length by omega),
        if_pos rfl]
      simp [hr]
    · have hone : [c].findIdx? (· == c') = none := by
        rw [List.findIdx?_eq_none_iff]
        intro x hx
        rw [List.mem_singleton] at hx
        subst hx
        exact beq_eq_false_iff_ne.mpr fun e => hc e.symm
      have happ : (cols ++ [c]).findIdx? (· == c') = cols.findIdx? (· == c') := by
        rw [List.findIdx?_append, hone]
        simp
      rw [happ, if_neg hc]
      cases h' : cols.findIdx? (· == c') with
      | some j =>
        obtain ⟨hj, -⟩ := findIdxCol_found h'
        simp only [List.getD_eq_getElem?_getD,
          List.getElem?_append_left (show j < r.length by omega)]
      | none => rfl

theorem updCols_of_mem {cols : List String} {c : String} (h : c ∈ cols) :
    updCols cols c = cols := by
  obtain ⟨i, hi⟩ := findIdxCol_exists h
  unfold updCols
  rw [hi]

theorem updCols_of_not_mem {cols : List String} {c : String} (h : c ∉ cols) :
    updCols cols c = cols ++ [c] := by
  unfold updCols
  rw [findIdxCol_eq_none h]

theorem updRow_length {cols : List String} {c : String} {f : List Value → Value}
    {r : List Value} (hr : r.length = cols.length) :
    (updRow cols c f r).length = (updCols cols c).length := by
  unfold updRow updCols
  cases h : cols.findIdx? (· == c) <;> simp [hr]

theorem updCol_wf {t : Table} {c : String} {f : List Value → Value} (h : t.WF) :
    (updCol t c f).WF := by
  intro r hr
  simp only [updCol, List.mem_map] at hr
  obtain ⟨r₀, hr₀, rfl⟩ := hr
  exact updRow_length (h r₀ hr₀)

theorem updCol_rows (t : Table) (c : String) (f : List Value → Value) :
    (updCol t c f).rows = t.rows.map (updRow t.cols c f) := rfl

theorem updCol_cols (t : Table) (c : String) (f : List Value → Value) :
    (updCol t c f).cols = updCols t.cols c := rfl

theorem mem_updCols {cols : List String} {c c' : String} (h : c' ∈ cols) :
    c' ∈ updCols cols c := by
  unfold updCols
  cases cols.findIdx? (· == c)
  · exact List.mem_append_left _ h
  · exact h

theorem updCols_nodup {cols : List String} {c : String} (h : cols.Nodup) :
    (updCols cols c).Nodup := by
  by_cases hm : c ∈ cols
  · rw [updCols_of_mem hm]
    exact h
  · rw [updCols_of_not_mem hm]
    simp [List.nodup_append, h, hm]

/-! ### The processed table, characterized against the input -/

theorem stripHeaders_rows (t : Table) : (stripHeaders t).rows = t.rows := rfl

theorem stripHeaders_cols (t : Table) : (stripHeaders t).cols = t.cols.map pyStrip := rfl

theorem stripHeaders_wf {t : Table} (h : t.WF) : (stripHeaders t).WF := by
  intro r hr
  simp only [stripHeaders]
  rw [List.length_map]
  exact h r hr

/-- Column list after the numeric-coercion fold (proof helper). -/
def coerceColsFn : List String → List String → List String
  | [], cols => cols
  | c :: ws, cols => coerceColsFn ws (updCols cols c)

/-- Per-row effect of the numeric-coercion fold (proof helper). -/
def coerceRowFn : List String → List String → List Value → List Value
  | [], _, r => r
  | c :: ws, cols, r =>
    coerceRowFn ws (updCols cols c)
      (updRow cols c (fun r' => coerceCell (cellOf cols r' c)) r)

theorem coerceFold_rows_cols (ws : List String) (t : Table) :
    (ws.foldl coerceStep t).rows = t.rows.map (coerceRowFn ws t.cols) ∧
    (ws.foldl coerceStep t).cols = coerceColsFn ws t.cols := by
  induction ws generalizing t with
  | nil => simp [coerceRowFn, coerceColsFn]
  | cons c ws ih =>
    have h := ih (coerceStep t c)
    constructor
    · rw [List.foldl_cons, h.1, coerceStep, updCol_rows, List.map_map]
      rfl
    · rw [List.foldl_cons, h.2, coerceStep, updCol_cols]
      rfl

theorem coerceFold_wf (ws : List String) (t : Table) (hwf : t.WF) :
    (ws.foldl coerceStep t).WF := by
  induction ws generalizing t with
  | nil => exact hwf
  | cons c ws ih => exact ih (coerceStep t c) (updCol_wf hwf)

theorem coerceFold_cols (ws : List String) (t : Table) (hw : ws.Nodup) :
    (ws.foldl coerceStep t).cols =
      t.cols ++ ws.filter (fun c => decide (c ∉ t.cols)) := by
  induction ws generalizing t with
  | nil => simp
  | cons c ws ih =>
    rw [List.foldl_cons]
    have hw' : ws.Nodup := hw.of_cons
    have hcn : c ∉ ws := (List.nodup_cons.mp hw).1
    by_cases hm : c ∈ t.cols
    · have hcols : (coerceStep t c).cols = t.cols := by
        rw [coerceStep, updCol_cols, updCols_of_mem hm]
      rw [ih (coerceStep t c) hw', hcols, List.filter_cons_of_neg (by simp [hm])]
    · have hcols : (coerceStep t c).cols = t.cols ++ [c] := by
        rw [coerceStep, updCol_cols, updCols_of_not_mem hm]
      have hfil : ws.filter (fun x => decide (x ∉ t.cols ++ [c])) =
          ws.filter (fun x => decide (x ∉ t.cols)) := by
        apply List.filter_congr
        intro x hx
        have hxc : x ≠ c := fun e => hcn (e ▸ hx)
        simp [hxc]
      rw [ih (coerceStep t c) hw', hcols, hfil,
        List.filter_cons_of_pos (by simp [hm])]
      simp

theorem coerceFold_cell (ws : List String) (t : Table) (hwf : t.WF) (hw : ws.Nodup) :
    ∀ r ∈ t.rows, ∀ c',
      cellOf (ws.foldl coerceStep t).cols (coerceRowFn ws t.cols r) c' =
        if c' ∈ ws then coerceCell (cellOf t.cols r c') else cellOf t.cols r c' := by
  induction ws generalizing t with
  | nil => simp [coerceRowFn]
  | cons c ws ih =>
    intro r hr c'
    have hw' : ws.Nodup := hw.of_cons
    have hcn : c ∉ ws := (List.nodup_cons.mp hw).1
    have hr' : r.length = t.cols.length := hwf r hr
    have hmem : updRow t.cols c (fun r' => coerceCell (cellOf t.cols r' c)) r ∈
        (coerceStep t c).rows := by
      rw [coerceStep, updCol_rows]
      exact List.mem_map_of_mem _ hr
    have step := ih (coerceStep t c) (updCol_wf hwf) hw' _ hmem c'
    rw [List.foldl_cons]
    show cellOf (ws.foldl coerceStep (coerceStep t c)).cols
        (coerceRowFn ws (updCols t.cols c)
          (updRow t.cols c (fun r' => coerceCell (cellOf t.cols r' c)) r)) c' = _
    have hcols : (coerceStep t c).cols = updCols t.cols c := rfl
    rw [hcols] at step
    rw [step]
    have hbase := @cellOf_updRow t.cols c
      (fun r' => coerceCell (cellOf t.cols r' c)) r hr' c'
    by_cases h1 : c' ∈ ws
    · have hne : c' ≠ c := fun e => hcn (e ▸ h1)
      rw [if_pos h1, if_pos (List.mem_cons_of_mem _ h1), hbase, if_neg hne]
    · rw [if_neg h1]
      by_cases h2 : c' = c
      · subst h2
        rw [hbase, if_pos rfl, if_pos (List.mem_cons_self _ _)]
      · rw [hbase, if_neg h2, if_neg (by simp [h2, h1])]

/-- What one processed cell holds, described from the (header-stripped)
input row (proof helper): the computed `Party_Short`, the normalized
`GSTIN` string, coerced designated numeric cells, and untouched cells
elsewhere. -/
def procCellSpec (cols : List String) (r : List Value) (c : String) : Value :=
  if c = "Party_Short" then .str (determine_party_short (cellOf cols r "Party"))
  else if c = "GSTIN" then .str (gstinStr (cellOf cols r "GSTIN"))
  else if c ∈ num_cols then coerceCell (cellOf cols r c)
  else cellOf cols r c

/-- Per-row effect of the whole processing pipeline (proof helper). -/
def procRowFn (cols : List String) (r : List Value) : List Value :=
  let cols1 := coerceColsFn num_cols cols
  let r1 := coerceRowFn num_cols cols r
  let cols2 := updCols cols1 "Party_Short"
  let r2 := updRow cols1 "Party_Short"
    (fun r' => .str (determine_party_short (cellOf cols1 r' "Party"))) r1
  updRow cols2 "GSTIN" (fun r' => .str (gstinStr (cellOf cols2 r' "GSTIN"))) r2

theorem processTable_rows (t : Table) :
    (processTable t).rows = t.rows.map (procRowFn (stripHeaders t).cols) := by
  have h := coerceFold_rows_cols num_cols (stripHeaders t)
  simp only [processTable, normGSTIN, addPartyShort, coerceNumCols, updCol_rows,
    updCol_cols, h.1, h.2, stripHeaders_rows, List.map_map]
  rfl

theorem processTable_cols (t : Table) :
    (processTable t).cols =
      updCols (updCols (coerceColsFn num_cols (stripHeaders t).cols) "Party_Short")
        "GSTIN" := by
  have h := coerceFold_rows_cols num_cols (stripHeaders t)
  simp only [processTable, normGSTIN, addPartyShort, coerceNumCols, updCol_cols, h.2]

theorem processTable_wf (t : Table) (hwf : t.WF) : (processTable t).WF :=
  updCol_wf (updCol_wf (coerceFold_wf num_cols _ (stripHeaders_wf hwf)))

theorem processTable_cell (t : Table) (hwf : t.WF) :
    ∀ r ∈ t.rows, ∀ c,
      cellOf (processTable t).cols (procRowFn (stripHeaders t).cols r) c =
        procCellSpec (stripHeaders t).cols r c := by
  intro r hr c
  have hwf0 : (stripHeaders t).WF := stripHeaders_wf hwf
  have hr0 : r ∈ (stripHeaders t).rows := by rw [stripHeaders_rows]; exact hr
  have hrlen : r.length = (stripHeaders t).cols.length := hwf0 r hr0
  have h1cols : (num_cols.foldl coerceStep (stripHeaders t)).cols =
      coerceColsFn num_cols (stripHeaders t).cols :=
    (coerceFold_rows_cols num_cols (stripHeaders t)).2
  have h1 := coerceFold_cell num_cols (stripHeaders t) hwf0 (by decide) r hr0
  rw [h1cols] at h1
  have h1wf : (num_cols.foldl coerceStep (stripHeaders t)).WF :=
    coerceFold_wf num_cols _ hwf0
  have h1len : (coerceRowFn num_cols (stripHeaders t).cols r).length =
      (coerceColsFn num_cols (stripHeaders t).cols).length := by
    have hm : coerceRowFn num_cols (stripHeaders t).cols r ∈
        (num_cols.foldl coerceStep (stripHeaders t)).rows := by
      rw [(coerceFold_rows_cols num_cols (stripHeaders t)).1, stripHeaders_rows]
      exact List.mem_map_of_mem _ hr
    have := h1wf _ hm
    rwa [h1cols] at this
  have h2 := @cellOf_updRow (coerceColsFn num_cols (stripHeaders t).cols)
    "Party_Short"
    (fun r' => .str (determine_party_short
      (cellOf (coerceColsFn num_cols (stripHeaders t).cols) r' "Party")))
    (coerceRowFn num_cols (stripHeaders t).cols r)
    h1len
  have h2len := @updRow_length (coerceColsFn num_cols (stripHeaders t).cols)
    "Party_Short"
    (fun r' => .str (determine_party_short
      (cellOf (coerceColsFn num_cols (stripHeaders t).cols) r' "Party")))
    (coerceRowFn num_cols (stripHeaders t).cols r) h1len
  have h3 := @cellOf_updRow
    (updCols (coerceColsFn num_cols (stripHeaders t).cols) "Party_Short")
    "GSTIN"
    (fun r' => .str (gstinStr
      (cellOf (updCols (coerceColsFn num_cols (stripHeaders t).cols) "Party_Short")
        r' "GSTIN")))
    (updRow (coerceColsFn num_cols (stripHeaders t).cols) "Party_Short"
      (fun r' => .str (determine_party_short
        (cellOf (coerceColsFn num_cols (stripHeaders t).cols) r' "Party")))
      (coerceRowFn num_cols (stripHeaders t).cols r))
    h2len
  rw [processTable_cols]
  simp only [procRowFn, h3, h2, h1, procCellSpec]
  by_cases hg : c = "GSTIN"
  · subst hg
    simp [num_cols]
  · by_cases hps : c = "Party_Short"
    · subst hps
      simp [num_cols]
    · simp [hg, hps]

/-! ### The output table, characterized against the input -/

theorem round2_idem (q : ℚ) : round2 (round2 q) = round2 q := by
  unfold round2
  have hb : ∀ x : ℚ, Rat.floor x = ⌊x⌋ := fun _ => rfl
  simp only [hb]
  set n : ℤ := ⌊q * 100 + 1 / 2⌋ with hn
  have h100 : (n : ℚ) / 100 * 100 = (n : ℚ) := by
    field_simp
  rw [h100]
  have hfl : ⌊(n : ℚ) + 1 / 2⌋ = n := by
    rw [Int.floor_int_add]
    norm_num
  rw [hfl]

/-- A member row before the final formatting pass (proof helper). -/
def preMemberRow (cols fc : List String) (k : String × String)
    (r : List Value) : List Value :=
  fc.map fun c => if c = "Party" then .str k.1 else procCellSpec cols r c

/-- Setting position `i` (the position of column `c`) of a column-shaped
row only rewrites the `c` entry when the columns are distinct. -/
theorem map_set_at_col {fc : List String} (hfc : fc.Nodup) {i : Nat} {c : String}
    (hfind : fc.findIdx? (· == c) = some i) (h : String → Value) (v : Value) :
    (fc.map h).set i v = fc.map (fun c' => if c' = c then v else h c') := by
  obtain ⟨hlt, hgi⟩ := findIdxCol_found hfind
  apply List.ext_getElem?
  intro j
  by_cases hj : j = i
  · subst hj
    rw [List.getElem?_set_self (by simpa using hlt), List.getElem?_map,
      List.getElem?_eq_getElem hlt]
    simp [hgi]
  · rw [List.getElem?_set_ne (fun e => hj e.symm), List.getElem?_map, List.getElem?_map]
    by_cases hjl : j < fc.length
    · rw [List.getElem?_eq_getElem hjl]
      have hne : fc[j] ≠ c := fun e => by
        rw [← hgi] at e
        exact hj (hfc.getElem_inj_iff.mp e)
      simp [hne]
    · rw [List.getElem?_eq_none (by omega)]
      rfl

/-- Per-row effect of the formatting fold (proof helper). -/
def fmtRowFn : List String → List String → List Value → List Value
  | [], _, r => r
  | c :: ws, cols, r =>
    fmtRowFn ws cols
      (match cols.findIdx? (· == c) with
       | some i => r.set i (fmtCell (r.getD i .na))
       | none => r)

theorem fmtPass_rows_cols (ws : List String) (t : Table) :
    (ws.foldl fmtStep t).rows = t.rows.map (fmtRowFn ws t.cols) ∧
    (ws.foldl fmtStep t).cols = t.cols := by
  induction ws generalizing t with
  | nil => simp [fmtRowFn]
  | cons c ws ih =>
    rw [List.foldl_cons]
    have h := ih (fmtStep t c)
    have hcols : (fmtStep t c).cols = t.cols := by
      unfold fmtStep
      cases hf : t.cols.findIdx? (· == c) <;> rfl
    have hrows : (fmtStep t c).rows =
        t.rows.map fun r =>
          match t.cols.findIdx? (· == c) with
          | some i => r.set i (fmtCell (r.getD i .na))
          | none => r := by
      unfold fmtStep
      cases hf : t.cols.findIdx? (· == c)
      · simp
      · rfl
    refine ⟨?_, by rw [h.2, hcols]⟩
    rw [h.1, hcols, hrows, List.map_map]
    rfl

/-- On a column-shaped row, the formatting fold rewrites exactly the
cells of the (distinct) formatted columns. -/
theorem fmtRowFn_map (ws : List String) (fc : List String) (hfc : fc.Nodup)
    (hws : ws.Nodup) (h : String → Value) :
    fmtRowFn ws fc (fc.map h) =
      fc.map fun c => if c ∈ ws then fmtCell (h c) else h c := by
  induction ws generalizing h with
  | nil => simp [fmtRowFn]
  | cons c ws ih =>
    have hws' : ws.Nodup := hws.of_cons
    have hcn : c ∉ ws := (List.nodup_cons.mp hws).1
    show fmtRowFn ws fc
      (match fc.findIdx? (· == c) with
       | some i => (fc.map h).set i (fmtCell ((fc.map h).getD i .na))
       | none => fc.map h) = _
    cases hf : fc.findIdx? (· == c) with
    | some i =>
      obtain ⟨hlt, hgi⟩ := findIdxCol_found hf
      have hget : (fc.map h).getD i .na = h c := by
        rw [List.getD_eq_getElem?_getD, List.getElem?_map,
          List.getElem?_eq_getElem hlt]
        simp [hgi]
      show fmtRowFn ws fc ((fc.map h).set i (fmtCell ((fc.map h).getD i .na))) = _
      rw [hget, map_set_at_col hfc hf h (fmtCell (h c)),
        ih hws' (fun c' => if c' = c then fmtCell (h c) else h c')]
      apply List.map_congr_left
      intro x hx
      by_cases hxc : x = c
      · subst hxc
        simp [hcn]
      · by_cases hxw : x ∈ ws <;> simp [hxc, hxw]
    | none =>
      show fmtRowFn ws fc (fc.map h) = _
      rw [ih hws' h]
      apply List.map_congr_left
      intro x hx
      have hxc : x ≠ c := fun e => by
        obtain ⟨j, hj⟩ := findIdxCol_exists (e ▸ hx)
        rw [hf] at hj
        cases hj
      by_cases hxw : x ∈ ws <;> simp [hxc, hxw]

theorem Table.ext_cols_rows {t₁ t₂ : Table} (h1 : t₁.cols = t₂.cols)
    (h2 : t₁.rows = t₂.rows) : t₁ = t₂ := by
  cases t₁
  cases t₂
  cases h1
  cases h2
  rfl

theorem coerceColsFn_eq (C : List String) :
    coerceColsFn num_cols C = C ++ missingNum C := by
  have h1 := (coerceFold_rows_cols num_cols ⟨C, []⟩).2
  have h2 := coerceFold_cols num_cols ⟨C, []⟩ (by decide)
  rw [h1] at h2
  exact h2

theorem specFc_nodup (t : Table) (hnd : (stripHeaders t).cols.Nodup) :
    (specFc t).Nodup := by
  apply List.Nodup.filter
  rw [List.nodup_append]
  refine ⟨hnd, List.Nodup.filter _ (by decide), ?_⟩
  intro a ha hb
  have := List.mem_filter.mp hb
  exact absurd ha (of_decide_eq_true this.2)

theorem mem_specFc_ne_PS {t : Table} {c : String} (h : c ∈ specFc t) :
    c ≠ "Party_Short" := by
  have := List.mem_filter.mp h
  simpa using this.2

theorem finalCols_processTable (t : Table)
    (hG : "GSTIN" ∈ (stripHeaders t).cols) :
    finalColsOf (processTable t) = specFc t := by
  rw [finalColsOf, processTable_cols, coerceColsFn_eq]
  have hG2 : "GSTIN" ∈ (stripHeaders t).cols ++ missingNum (stripHeaders t).cols :=
    List.mem_append_left _ hG
  by_cases hps : "Party_Short" ∈ (stripHeaders t).cols ++ missingNum (stripHeaders t).cols
  · rw [updCols_of_mem hps, updCols_of_mem hG2, specFc]
  · rw [updCols_of_not_mem hps, updCols_of_mem (List.mem_append_left _ hG2), specFc,
      List.filter_append]
    simp

theorem rowKey_procRow (t : Table) (hwf : t.WF) {r : List Value} (hr : r ∈ t.rows) :
    rowKey (processTable t).cols (procRowFn (stripHeaders t).cols r) =
      inKey (stripHeaders t).cols r := by
  unfold rowKey inKey
  rw [processTable_cell t hwf r hr "Party_Short", processTable_cell t hwf r hr "GSTIN"]
  simp [procCellSpec, pyStr]

theorem keysOf_processTable (t : Table) (hwf : t.WF) :
    keysOf (processTable t) = t.rows.map (inKey (stripHeaders t).cols) := by
  rw [keysOf, processTable_rows, List.map_map]
  apply List.map_congr_left
  intro r hr
  exact rowKey_procRow t hwf hr

theorem filter_processTable (t : Table) (hwf : t.WF) (k : String × String) :
    (processTable t).rows.filter
        (fun r => decide (rowKey (processTable t).cols r = k)) =
      (t.rows.filter fun r => decide (inKey (stripHeaders t).cols r = k)).map
        (procRowFn (stripHeaders t).cols) := by
  rw [processTable_rows, List.filter_map]
  congr 1
  apply List.filter_congr
  intro r hr
  show decide (rowKey (processTable t).cols (procRowFn (stripHeaders t).cols r) = k) = _
  rw [rowKey_procRow t hwf hr]

theorem memberRow_procRow (t : Table) (hwf : t.WF) {r : List Value} (hr : r ∈ t.rows)
    (fc : List String) (k : String × String) :
    memberRow (processTable t).cols fc k.1 (procRowFn (stripHeaders t).cols r) =
      preMemberRow (stripHeaders t).cols fc k r := by
  unfold memberRow preMemberRow
  apply List.map_congr_left
  intro c hc
  by_cases hp : c = "Party"
  · simp [hp]
  · rw [if_neg hp, if_neg hp]
    exact processTable_cell t hwf r hr c

theorem sumCol_procRow (t : Table) (hwf : t.WF) (c : String) (hcn : c ∈ num_cols)
    (g : List (List Value)) (hg : ∀ r ∈ g, r ∈ t.rows) :
    sumCol (processTable t).cols c (g.map (procRowFn (stripHeaders t).cols)) =
      specSumCol (stripHeaders t).cols c g := by
  unfold sumCol specSumCol
  rw [List.map_map]
  congr 1
  apply List.map_congr_left
  intro r hr
  show valQ (cellOf (processTable t).cols (procRowFn (stripHeaders t).cols r) c) = _
  rw [processTable_cell t hwf r (hg r hr) c]
  have h1 : c ≠ "Party_Short" := by
    rintro rfl
    revert hcn
    decide
  have h2 : c ≠ "GSTIN" := by
    rintro rfl
    revert hcn
    decide
  rw [procCellSpec, if_neg h1, if_neg h2, if_pos hcn]
  rfl

theorem subtotalRow_procRow (t : Table) (hwf : t.WF) (fc : List String)
    (k : String × String) (g : List (List Value)) (hg : ∀ r ∈ g, r ∈ t.rows) :
    subtotalRow (processTable t).cols fc k (g.map (procRowFn (stripHeaders t).cols)) =
      specSubtotalRow (stripHeaders t).cols fc k g := by
  unfold subtotalRow specSubtotalRow
  simp only [sumCol_procRow t hwf "TAXABLE" (by decide) g hg,
    sumCol_procRow t hwf "IGST" (by decide) g hg,
    sumCol_procRow t hwf "CGST" (by decide) g hg,
    sumCol_procRow t hwf "SGST" (by decide) g hg,
    sumCol_procRow t hwf "NETAMOUNT" (by decide) g hg]
  apply List.map_congr_left
  intro c hc
  by_cases h1 : c = "GSTIN"
  · simp [h1]
  · by_cases h2 : c = "Party"
    · simp [h1, h2]
    · by_cases h3 : c = "TAXABLE"
      · simp [h1, h2, h3]
      · by_cases h4 : c = "TAXPER"
        · simp [h1, h2, h3, h4]
        · by_cases h5 : c = "IGST"
          · simp [h1, h2, h3, h4, h5]
          · by_cases h6 : c = "CGST"
            · simp [h1, h2, h3, h4, h5, h6]
            · by_cases h7 : c = "SGST"
              · simp [h1, h2, h3, h4, h5, h6, h7]
              · by_cases h8 : c = "NETAMOUNT"
                · simp [h1, h2, h3, h4, h5, h6, h7, h8]
                · simp [h1, h2, h3, h4, h5, h6, h7, h8]

theorem outRows_processTable (t : Table) (hwf : t.WF)
    (hG : "GSTIN" ∈ (stripHeaders t).cols) :
    outRows (processTable t) =
      (firstSeenAux [] (t.rows.map (inKey (stripHeaders t).cols))).flatMap fun k =>
        (t.rows.filter fun r => decide (inKey (stripHeaders t).cols r = k)).map
          (preMemberRow (stripHeaders t).cols (specFc t) k) ++
        [specSubtotalRow (stripHeaders t).cols (specFc t) k
          (t.rows.filter fun r => decide (inKey (stripHeaders t).cols r = k))] := by
  unfold outRows
  dsimp only
  rw [finalCols_processTable t hG, keysOf_processTable t hwf]
  congr 1
  funext k
  rw [filter_processTable t hwf k]
  congr 1
  · rw [List.map_map]
    apply List.map_congr_left
    intro r hr
    exact memberRow_procRow t hwf (List.mem_of_mem_filter hr) (specFc t) k
  · rw [subtotalRow_procRow t hwf (specFc t) k _
      (fun r hr => List.mem_of_mem_filter hr)]

theorem fmt_preMember (C fc : List String) (hfc : fc.Nodup)
    (hPS : ∀ c ∈ fc, c ≠ "Party_Short") (k : String × String) (r : List Value)
    (hk : inKey C r = k) :
    fmtRowFn num_cols fc (preMemberRow C fc k r) = specMemberRow C fc k r := by
  unfold preMemberRow
  rw [fmtRowFn_map num_cols fc hfc (by decide)]
  unfold specMemberRow
  apply List.map_congr_left
  intro c hc
  by_cases hp : c = "Party"
  · subst hp
    simp [show ("Party" : String) ∉ num_cols from by decide]
  · by_cases hgg : c = "GSTIN"
    · subst hgg
      rw [if_neg (show ¬ (("GSTIN" : String) ∈ num_cols) from by decide),
        if_neg hp, if_neg hp, if_pos rfl, procCellSpec,
        if_neg (show ("GSTIN" : String) ≠ "Party_Short" from by decide),
        if_pos rfl, ← hk]
      rfl
    · by_cases hn : c ∈ num_cols
      · have hps : c ≠ "Party_Short" := hPS c hc
        rw [if_pos hn, if_neg hp, if_neg hp, if_neg hgg, if_pos hn, procCellSpec,
          if_neg hps, if_neg hgg, if_pos hn]
        rfl
      · have hps : c ≠ "Party_Short" := hPS c hc
        rw [if_neg hn, if_neg hp, if_neg hp, if_neg hgg, if_neg hn, procCellSpec,
          if_neg hps, if_neg hgg, if_neg hn]

theorem fmt_preSub (C fc : List String) (hfc : fc.Nodup) (k : String × String)
    (g : List (List Value)) :
    fmtRowFn num_cols fc (specSubtotalRow C fc k g) = specSubtotalRow C fc k g := by
  unfold specSubtotalRow
  rw [fmtRowFn_map num_cols fc hfc (by decide)]
  apply List.map_congr_left
  intro c hc
  dsimp only
  by_cases hn : c ∈ num_cols
  · rw [if_pos hn]
    have hd : c = "TAXABLE" ∨ c = "IGST" ∨ c = "CGST" ∨ c = "SGST" ∨
        c = "NETAMOUNT" := by
      simpa [num_cols] using hn
    rcases hd with rfl | rfl | rfl | rfl | rfl
    · simp [fmtCell, round2_idem]
    · by_cases hz : round2 (specSumCol C "IGST" g) = 0 <;>
        simp [fmtCell, hz, round2_idem]
    · by_cases hz : round2 (specSumCol C "CGST" g) = 0 <;>
        simp [fmtCell, hz, round2_idem]
    · by_cases hz : round2 (specSumCol C "SGST" g) = 0 <;>
        simp [fmtCell, hz, round2_idem]
    · simp [fmtCell, round2_idem]
  · rw [if_neg hn]

set_option maxHeartbeats 1000000 in
theorem summarize_eq_spec (t : Table) (hwf : t.WF)
    (hnd : (stripHeaders t).cols.Nodup)
    (hP : "Party" ∈ (stripHeaders t).cols) (hG : "GSTIN" ∈ (stripHeaders t).cols) :
    summarize_df t = .ok (specOutput t) := by
  rw [summarize_df]
  dsimp only
  rw [if_pos ⟨hP, hG⟩]
  congr 1
  apply Table.ext_cols_rows
  · rw [fmtPass, (fmtPass_rows_cols num_cols _).2]
    show finalColsOf (processTable t) = (specOutput t).cols
    rw [finalCols_processTable t hG]
    rfl
  · rw [fmtPass, (fmtPass_rows_cols num_cols _).1]
    show (outRows (processTable t)).map
        (fmtRowFn num_cols (finalColsOf (processTable t))) = (specOutput t).rows
    rw [finalCols_processTable t hG, outRows_processTable t hwf hG,
      List.map_flatMap]
    unfold specOutput
    dsimp only
    congr 1
    funext k
    rw [List.map_append, List.map_map]
    congr 1
    · apply List.map_congr_left
      intro r hr
      have hk : inKey (stripHeaders t).cols r = k :=
        of_decide_eq_true (List.mem_filter.mp hr).2
      exact fmt_preMember _ _ (specFc_nodup t hnd)
        (fun c hc => mem_specFc_ne_PS hc) k r hk
    · show [fmtRowFn num_cols (specFc t) _] = _
      rw [fmt_preSub _ _ (specFc_nodup t hnd)]

/-! ### Counting: first-seen keys and the partition of rows into groups -/

theorem firstSeenAux_mem (x : String × String) :
    ∀ (m seen : List (String × String)),
      (x ∈ firstSeenAux seen m ↔ x ∈ m ∧ x ∉ seen) := by
  intro m
  induction m with
  | nil => simp [firstSeenAux]
  | cons k ks ih =>
    intro seen
    unfold firstSeenAux
    by_cases hk : k ∈ seen
    · rw [if_pos hk, ih seen]
      constructor
      · rintro ⟨h1, h2⟩
        exact ⟨List.mem_cons_of_mem _ h1, h2⟩
      · rintro ⟨h1, h2⟩
        rcases List.mem_cons.mp h1 with rfl | h1
        · exact absurd hk h2
        · exact ⟨h1, h2⟩
    · rw [if_neg hk]
      constructor
      · intro h
        rcases List.mem_cons.mp h with rfl | h
        · exact ⟨List.mem_cons_self _ _, hk⟩
        · have := (ih (k :: seen)).mp h
          refine ⟨List.mem_cons_of_mem _ this.1, fun hx => this.2 (List.mem_cons_of_mem _ hx)⟩
      · rintro ⟨h1, h2⟩
        rcases List.mem_cons.mp h1 with rfl | h1
        · exact List.mem_cons_self _ _
        · by_cases hxk : x = k
          · subst hxk
            exact List.mem_cons_self _ _
          · exact List.mem_cons_of_mem _
              ((ih (k :: seen)).mpr ⟨h1, fun hx => by
                rcases List.mem_cons.mp hx with h | h
                · exact hxk h
                · exact h2 h⟩)

theorem firstSeenAux_nodup :
    ∀ (m seen : List (String × String)), (firstSeenAux seen m).Nodup := by
  intro m
  induction m with
  | nil => simp [firstSeenAux]
  | cons k ks ih =>
    intro seen
    unfold firstSeenAux
    by_cases hk : k ∈ seen
    · rw [if_pos hk]
      exact ih seen
    · rw [if_neg hk]
      refine List.nodup_cons.mpr ⟨?_, ih (k :: seen)⟩
      intro hmem
      exact ((firstSeenAux_mem k ks (k :: seen)).mp hmem).2 (List.mem_cons_self _ _)

theorem firstSeenAux_length (m : List (String × String)) :
    (firstSeenAux [] m).length = m.toFinset.card := by
  have hnd := firstSeenAux_nodup m []
  have hset : (firstSeenAux [] m).toFinset = m.toFinset := by
    ext x
    simp [List.mem_toFinset, firstSeenAux_mem]
  rw [← List.toFinset_card_of_nodup hnd, hset]

theorem sum_map_add_nat {K : Type} (ks : List K) (u w : K → Nat) :
    (ks.map fun k => u k + w k).sum = (ks.map u).sum + (ks.map w).sum := by
  induction ks with
  | nil => simp
  | cons k ks ih =>
    simp only [List.map_cons, List.sum_cons, ih]
    omega

theorem sum_map_indicator_zero {K : Type} [DecidableEq K] {v : K} :
    ∀ (ks : List K), v ∉ ks → (ks.map fun k => if v = k then 1 else 0).sum = 0 := by
  intro ks
  induction ks with
  | nil => simp
  | cons k ks ih =>
    intro hv
    have h1 : v ≠ k := fun e => hv (e ▸ List.mem_cons_self _ _)
    have h2 : v ∉ ks := fun e => hv (List.mem_cons_of_mem _ e)
    simp [h1, ih h2]

theorem sum_map_indicator_one {K : Type} [DecidableEq K] {v : K} :
    ∀ (ks : List K), ks.Nodup → v ∈ ks →
      (ks.map fun k => if v = k then 1 else 0).sum = 1 := by
  intro ks
  induction ks with
  | nil => simp
  | cons k ks ih =>
    intro hnd hv
    by_cases h : v = k
    · subst h
      have : v ∉ ks := (List.nodup_cons.mp hnd).1
      simp [sum_map_indicator_zero ks this]
    · rcases List.mem_cons.mp hv with rfl | hv'
      · exact absurd rfl h
      · simp [h, ih (List.nodup_cons.mp hnd).2 hv']

theorem sum_filter_length {α K : Type} [DecidableEq K] (f : α → K) :
    ∀ (L : List α) (ks : List K), ks.Nodup → (∀ x ∈ L, f x ∈ ks) →
      (ks.map fun k => (L.filter fun x => decide (f x = k)).length).sum = L.length := by
  intro L
  induction L with
  | nil =>
    intro ks _ _
    have : ∀ k ∈ ks, (([] : List α).filter fun x => decide (f x = k)).length = 0 := by
      simp
    rw [List.map_congr_left fun k hk => this k hk]
    simp [List.sum_eq_zero]
  | cons a L ih =>
    intro ks hnd hall
    have hstep : ∀ k, ((a :: L).filter fun x => decide (f x = k)).length =
        (if f a = k then 1 else 0) + (L.filter fun x => decide (f x = k)).length := by
      intro k
      rw [List.filter_cons]
      by_cases h : f a = k
      · simp [h]
        omega
      · simp [h]
    rw [List.map_congr_left fun k _ => hstep k, sum_map_add_nat,
      sum_map_indicator_one ks hnd (hall a (List.mem_cons_self _ _)),
      ih ks hnd (fun x hx => hall x (List.mem_cons_of_mem _ hx))]
    simp [Nat.add_comm]

theorem sum_map_one {K : Type} (ks : List K) :
    (ks.map fun _ => 1).sum = ks.length := by
  induction ks with
  | nil => simp
  | cons k ks ih =>
    simp [ih]
    omega

/-- Row count of the claim-side output: every input row appears in exactly
one group, and each distinct key adds one subtotal row. -/
theorem specOutput_length (t : Table) :
    (specOutput t).rows.length =
      t.rows.length + (t.rows.map (inKey (stripHeaders t).cols)).toFinset.card := by
  unfold specOutput
  dsimp only
  rw [List.length_flatMap]
  have hstep : ∀ k ∈ firstSeenAux [] (t.rows.map (inKey (stripHeaders t).cols)),
      (List.length ∘ fun k =>
        (t.rows.filter fun r => decide (inKey (stripHeaders t).cols r = k)).map
          (specMemberRow (stripHeaders t).cols (specFc t) k) ++
        [specSubtotalRow (stripHeaders t).cols (specFc t) k
          (t.rows.filter fun r => decide (inKey (stripHeaders t).cols r = k))]) k =
      (t.rows.filter fun r => decide (inKey (stripHeaders t).cols r = k)).length + 1 := by
    intro k _
    simp
  rw [List.map_congr_left hstep, sum_map_add_nat, sum_map_one, firstSeenAux_length,
    sum_filter_length (inKey (stripHeaders t).cols) t.rows _
      (firstSeenAux_nodup _ [])
      (fun x hx => (firstSeenAux_mem _ _ []).mpr ⟨List.mem_map_of_mem _ hx, by simp⟩)]

/-! ### Supporting lemmas for the individual claims -/

theorem lookupAlias_eq_find (norm : String) :
    ∀ l : List (String × String), (∀ p ∈ l, p.1 ≠ "") →
      lookupAlias norm l =
        (l.find? fun p => pyIn p.1 norm).map fun p => pyUpper p.2 := by
  intro l
  induction l with
  | nil =>
    intro _
    rfl
  | cons p rest ih =>
    intro hne
    obtain ⟨k, v⟩ := p
    have hk : k ≠ "" := hne (k, v) (List.mem_cons_self _ _)
    have hkb : (k != "") = true := bne_iff_ne.mpr hk
    unfold lookupAlias
    by_cases hin : pyIn k norm = true
    · rw [if_pos (by simp [hkb, hin]), List.find?_cons_of_pos _ (by simpa using hin)]
      rfl
    · rw [if_neg (by simp [hin]),
        List.find?_cons_of_neg _ (by simpa using hin),
        ih (fun q hq => hne q (List.mem_cons_of_mem _ hq))]

theorem mapping_keys_ne_empty : ∀ p ∈ MAPPING_NORMALIZED, p.1 ≠ "" := by decide

theorem string_mk_ne_empty {l : List Char} (h : l ≠ []) : String.mk l ≠ "" := by
  intro e
  apply h
  have hd : (String.mk l).data = ("" : String).data := by rw [e]
  simpa using hd

theorem pyStrip_ne_iff {s : String} : pyStrip s ≠ "" ↔ pyStripList s.toList ≠ [] := by
  constructor
  · intro h he
    apply h
    rw [pyStrip, he]
  · intro h
    exact string_mk_ne_empty h

theorem party_mem_specFc {t : Table} (hP : "Party" ∈ (stripHeaders t).cols) :
    "Party" ∈ specFc t := by
  unfold specFc
  rw [List.mem_filter]
  exact ⟨List.mem_append_left _ hP, by decide⟩

theorem gstin_mem_specFc {t : Table} (hG : "GSTIN" ∈ (stripHeaders t).cols) :
    "GSTIN" ∈ specFc t := by
  unfold specFc
  rw [List.mem_filter]
  exact ⟨List.mem_append_left _ hG, by decide⟩

theorem num_mem_specFc {t : Table} {c : String} (hc : c ∈ num_cols) :
    c ∈ specFc t := by
  unfold specFc
  rw [List.mem_filter]
  constructor
  · by_cases h : c ∈ (stripHeaders t).cols
    · exact List.mem_append_left _ h
    · exact List.mem_append_right _ (List.mem_filter.mpr ⟨hc, by simpa using h⟩)
  · have hne : c ≠ "Party_Short" := by
      rintro rfl
      revert hc
      decide
    simpa using hne

theorem specFc_eq_filter_append (t : Table) :
    specFc t = (stripHeaders t).cols.filter (· ≠ "Party_Short") ++
      missingNum (stripHeaders t).cols := by
  unfold specFc
  rw [List.filter_append]
  congr 1
  apply List.filter_eq_self.mpr
  intro x hx
  have h1 : x ∈ num_cols := (List.mem_filter.mp hx).1
  have hne : x ≠ "Party_Short" := by
    rintro rfl
    revert h1
    decide
  simpa using hne

theorem getD_map_lt {α β : Type} (f : α → β) {l : List α} {j : Nat}
    (hj : j < l.length) (d : β) (d' : α) :
    (l.map f).getD j d = f (l.getD j d') := by
  rw [List.getD_eq_getElem?_getD, List.getElem?_map, List.getElem?_eq_getElem hj,
    List.getD_eq_getElem l d' hj]
  rfl

theorem getD_mem_of_lt {α : Type} {l : List α} {j : Nat} (hj : j < l.length) (d : α) :
    l.getD j d ∈ l := by
  rw [List.getD_eq_getElem l d hj]
  exact List.getElem_mem hj

theorem inputStateAfter_pos (t : Table) (hP : "Party" ∈ (stripHeaders t).cols)
    (hG : "GSTIN" ∈ (stripHeaders t).cols) :
    inputStateAfter t = processTable t := by
  unfold inputStateAfter
  dsimp only
  rw [if_pos ⟨hP, hG⟩]

theorem inputStateAfter_cols (t : Table) (hP : "Party" ∈ (stripHeaders t).cols)
    (hG : "GSTIN" ∈ (stripHeaders t).cols) :
    (inputStateAfter t).cols =
      (stripHeaders t).cols ++ missingNum (stripHeaders t).cols ++
        (if "Party_Short" ∈ (stripHeaders t).cols then [] else ["Party_Short"]) := by
  rw [inputStateAfter_pos t hP hG, processTable_cols, coerceColsFn_eq]
  by_cases hps : "Party_Short" ∈ (stripHeaders t).cols
  · have hm : "Party_Short" ∈ (stripHeaders t).cols ++ missingNum (stripHeaders t).cols :=
      List.mem_append_left _ hps
    rw [updCols_of_mem hm, updCols_of_mem (List.mem_append_left _ hG), if_pos hps,
      List.append_nil]
  · have hps2 : "Party_Short" ∉ (stripHeaders t).cols ++ missingNum (stripHeaders t).cols := by
      intro hmem
      rcases List.mem_append.mp hmem with h | h
      · exact hps h
      · have hn := (List.mem_filter.mp h).1
        revert hn
        decide
    rw [updCols_of_not_mem hps2, updCols_of_mem
        (List.mem_append_left _ (List.mem_append_left _ hG)), if_neg hps]

/-! ### The claims -/

set_option maxRecDepth 8000

instance (t : Table) : Decidable t.WF :=
  inferInstanceAs (Decidable (∀ r ∈ t.rows, r.length = t.cols.length))

def c1xT : Table :=
  ⟨["Party", "GSTIN", "TAXABLE"],
   [[.str "AAA", .str "G1", .num 1.234]]⟩

/-- C1, counterexample: the claim requires every member row to carry all
non-`Party` column values unchanged.  On a one-row table whose group is
{row 0}, the first output row is that group's only member row, so its
`TAXABLE` cell should still be `1.234`; the transform outputs `1.23`
(the coerced value rounded to two decimals). -/
theorem c1_counterexample :
    (summarize_df c1xT).toOption.map
        (fun res => cellOf res.cols (res.rows.getD 0 []) "TAXABLE") ≠
      some (Value.num 1.234) := by
  with_unfolding_all decide

/-- C1 (amended): for every well-formed input table with distinct trimmed
headers containing `Party` and `GSTIN`, the output consists of one
contiguous block per distinct (resolved short name, GSTIN) group key, in
first-seen order; within each block the group's member rows appear in
their original relative input order, each with `Party` replaced by the
resolved short name, `GSTIN` replaced by its coerced string form, each
designated numeric column replaced by its coerced value rounded to two
decimal places, and all other column values unchanged, followed
immediately by exactly one subtotal row.  (The amendment: the claim's
"all other column values unchanged" also held the designated numeric
columns and `GSTIN` fixed, which the code does not do — see the
counterexample.)  `specOutput` is word-for-word the description above. -/
theorem c1_grouping (t : Table) (hwf : t.WF)
    (hnd : (stripHeaders t).cols.Nodup)
    (hP : "Party" ∈ (stripHeaders t).cols) (hG : "GSTIN" ∈ (stripHeaders t).cols) :
    summarize_df t = .ok (specOutput t) :=
  summarize_eq_spec t hwf hnd hP hG

def c1wT : Table :=
  ⟨["Party", "GSTIN", "TAXABLE", "Note"],
   [[.str "ASIAN PAINTS LTD", .str "G1", .num 10, .str "a"],
    [.str "ESDEE PAINTS", .str "G2", .num 20, .str "b"],
    [.str "ASIAN PAINTS", .str "G1", .num 5, .str "c"]]⟩

/-- C1 witness: a three-row table with two interleaved groups; block
order follows first appearance and the interleaved third row rejoins the
first block. -/
theorem c1_grouping_witness :
    summarize_df c1wT = Except.ok (specOutput c1wT) ∧
    (specOutput c1wT).rows.map (fun r => cellOf (specFc c1wT) r "Party") =
      [.str "ASIAN", .str "ASIAN", .str "ASIAN",
       .str "ESDEE", .str "ESDEE"] :=
  ⟨c1_grouping c1wT (by decide) (by decide) (by decide) (by decide),
   by with_unfolding_all decide⟩

/-- C2: for every well-formed input table with distinct trimmed headers
containing `Party` and `GSTIN`, the output row count equals the input
row count plus the number of distinct (resolved short name, GSTIN) group
keys computed over the input rows. -/
theorem c2_row_count (t : Table) (hwf : t.WF)
    (hnd : (stripHeaders t).cols.Nodup)
    (hP : "Party" ∈ (stripHeaders t).cols) (hG : "GSTIN" ∈ (stripHeaders t).cols)
    (res : Table) (h : summarize_df t = .ok res) :
    res.rows.length =
      t.rows.length + (t.rows.map (inKey (stripHeaders t).cols)).toFinset.card := by
  have he : res = specOutput t :=
    Except.ok.inj (h.symm.trans (summarize_eq_spec t hwf hnd hP hG))
  rw [he, specOutput_length]

def c2wT : Table :=
  ⟨["Party", "GSTIN"],
   [[.str "ACME LTD", .str "G1"], [.str "ACME PVT", .str "G1"],
    [.str "OTHER", .str "G2"]]⟩

/-- C2 witness: three rows resolving to two distinct group keys give
3 + 2 = 5 output rows. -/
theorem c2_row_count_witness :
    (specOutput c2wT).rows.length =
      c2wT.rows.length +
        (c2wT.rows.map (inKey (stripHeaders c2wT).cols)).toFinset.card :=
  c2_row_count c2wT (by decide) (by decide) (by decide) (by decide)
    (specOutput c2wT) (by with_unfolding_all rfl)

/-- C3: for every party cell, the alias resolver normalizes it and
returns the upper-cased short name of the first alias-table entry (in
declared order) whose normalized alias text is a substring of the
normalized input, falling back to the fallback heuristic when no entry
matches; in particular, when two entries both match, the
earlier-declared entry's target is returned (`List.find?` returns the
first match). -/
theorem c3_alias_resolution : ∀ v : Value,
    determine_party_short v =
      ((MAPPING_NORMALIZED.find? fun p => pyIn p.1 (normalize_for_match v)).map
        fun p => pyUpper p.2).getD (fallback_shorten v) := by
  intro v
  unfold determine_party_short
  rw [lookupAlias_eq_find _ _ mapping_keys_ne_empty]
  cases MAPPING_NORMALIZED.find? fun p => pyIn p.1 (normalize_for_match v) with
  | none => rfl
  | some p => rfl

/-- C4: the fallback heuristic maps a missing cell to the empty string;
otherwise it applies the stripping pipeline (strip, parenthesized spans,
text before the first hyphen, text before the first slash, suffix-word
removal, whitespace collapsing) and upper-cases the result, returning
the upper-cased stripped original instead when everything was stripped
away — so a source with non-whitespace content never yields an empty
short name. -/
theorem c4_fallback :
    fallback_shorten Value.na = "" ∧
    (∀ s : String, fallback_shorten (.str s) =
      if (fallbackSteps s.toList).isEmpty then pyUpper (pyStrip s)
      else String.mk ((fallbackSteps s.toList).map Char.toUpper)) ∧
    (∀ s : String, pyStrip s ≠ "" → fallback_shorten (.str s) ≠ "") := by
  refine ⟨rfl, fun s => rfl, fun s h => ?_⟩
  have he : fallback_shorten (.str s) =
      if (fallbackSteps s.toList).isEmpty then pyUpper (pyStrip s)
      else String.mk ((fallbackSteps s.toList).map Char.toUpper) := rfl
  rw [he]
  by_cases hb : (fallbackSteps s.toList).isEmpty
  · rw [if_pos hb]
    have hl : pyStripList s.toList ≠ [] := pyStrip_ne_iff.mp h
    apply string_mk_ne_empty
    intro hmap
    exact hl (by simpa using hmap)
  · rw [if_neg hb]
    apply string_mk_ne_empty
    intro hmap
    rw [List.isEmpty_iff] at hb
    exact hb (by simpa using hmap)

/-- C4 witness: `"LTD"` is stripped to nothing by the suffix-word step,
so the upper-cased trimmed original is returned — a nonempty result. -/
theorem c4_fallback_witness :
    pyStrip "LTD" ≠ "" ∧ fallback_shorten (.str "LTD") ≠ "" :=
  ⟨by decide, c4_fallback.2.2 "LTD" (by decide)⟩

def c6T : Table :=
  ⟨["Party", "GSTIN", "TAXABLE", "IGST", "CGST", "SGST", "NETAMOUNT"],
   [[.str "ASIAN PAINTS LTD", .str "29AAA", .num 100, .num 0, .num 9, .num 9, .num 118],
    [.str "ASIAN PAINTS LTD", .str "29AAA", .num 50, .num 0, .num 4.5, .num 4.5, .num 59]]⟩

/-- C6: on the spec's two-row example (Party "ASIAN PAINTS LTD", GSTIN
"29AAA", TAXABLE 100/50, IGST 0/0, CGST 9/4.5, SGST 9/4.5, NETAMOUNT
118/59) the transform outputs the two rows with Party replaced by
"ASIAN" followed by one subtotal row with TAXABLE 150.00, IGST empty,
CGST 13.50, SGST 13.50, NETAMOUNT 177.00. -/
theorem c6_example :
    summarize_df c6T = Except.ok
      ⟨["Party", "GSTIN", "TAXABLE", "IGST", "CGST", "SGST", "NETAMOUNT"],
       [[.str "ASIAN", .str "29AAA", .num 100, .num 0, .num 9, .num 9, .num 118],
        [.str "ASIAN", .str "29AAA", .num 50, .num 0, .num 4.5, .num 4.5, .num 59],
        [.str "ASIAN", .str "29AAA", .num 150, .str "", .num 13.5, .num 13.5,
         .num 177]]⟩ := by
  with_unfolding_all rfl

/-- C7: the transform fails exactly when the header-trimmed table lacks
a `Party` or a `GSTIN` column, and then with the error message naming
both required columns; any table with both columns succeeds — numeric
coercion never fails: an unparseable cell and a missing cell both coerce
to zero. -/
theorem c7_failure : ∀ t : Table,
    ((∃ res, summarize_df t = .ok res) ↔
      "Party" ∈ (stripHeaders t).cols ∧ "GSTIN" ∈ (stripHeaders t).cols) ∧
    ("Party" ∉ (stripHeaders t).cols ∨ "GSTIN" ∉ (stripHeaders t).cols →
      summarize_df t = .error "Input must contain 'Party' and 'GSTIN' columns.") ∧
    (∀ s : String, parsePyFloat (removeCommas s) = none →
      coerceCell (.str s) = .num 0) ∧
    coerceCell Value.na = .num 0 := by
  intro t
  refine ⟨?_, ?_, fun s h => ?_, rfl⟩
  · unfold summarize_df
    dsimp only
    by_cases hc : "Party" ∈ (stripHeaders t).cols ∧ "GSTIN" ∈ (stripHeaders t).cols
    · rw [if_pos hc]
      exact ⟨fun _ => hc, fun _ => ⟨_, rfl⟩⟩
    · rw [if_neg hc]
      constructor
      · rintro ⟨res, hres⟩
        cases hres
      · intro h
        exact absurd h hc
  · intro hor
    have hc : ¬("Party" ∈ (stripHeaders t).cols ∧ "GSTIN" ∈ (stripHeaders t).cols) := by
      rcases hor with h | h
      · exact fun hc => h hc.1
      · exact fun hc => h hc.2
    unfold summarize_df
    dsimp only
    rw [if_neg hc]
  · show Value.num ((parsePyFloat (removeCommas s)).getD 0) = .num 0
    rw [h]
    rfl

def c7wT : Table := ⟨["GSTIN", "X"], [[.str "G", .str "y"]]⟩

/-- C7 witness: a table without a `Party` column fails with the error
message naming both required columns. -/
theorem c7_failure_witness :
    summarize_df c7wT = Except.error "Input must contain 'Party' and 'GSTIN' columns." :=
  (c7_failure c7wT).2.1 (Or.inl (by decide))

/-- The group of one input key, read off the input rows (claim-side). -/
def groupRowsOf (t : Table) (k : String × String) : List (List Value) :=
  t.rows.filter fun r => decide (inKey (stripHeaders t).cols r = k)

/-- The subtotal row of one group, as the claims describe it (claim-side). -/
def subRowOf (t : Table) (k : String × String) : List Value :=
  specSubtotalRow (stripHeaders t).cols (specFc t) k (groupRowsOf t k)

/-- C5: every group key's subtotal row appears in the output; in it,
`IGST`/`CGST`/`SGST` carry the group's rounded sum unless that rounded
sum is exactly zero (then the empty string); `TAXABLE` and `NETAMOUNT`
always carry their rounded sums, even when zero; a `TAXPER` column is
blanked; `Party`/`GSTIN` carry the group key; every other column is the
empty string. -/
theorem c5_subtotal (t : Table) (hwf : t.WF) (hnd : (stripHeaders t).cols.Nodup)
    (hP : "Party" ∈ (stripHeaders t).cols) (hG : "GSTIN" ∈ (stripHeaders t).cols)
    (res : Table) (hres : summarize_df t = .ok res) (k : String × String)
    (hk : k ∈ firstSeenAux [] (t.rows.map (inKey (stripHeaders t).cols))) :
    subRowOf t k ∈ res.rows ∧
    (∀ c ∈ (["IGST", "CGST", "SGST"] : List String),
      cellOf (specFc t) (subRowOf t k) c =
        if round2 (specSumCol (stripHeaders t).cols c (groupRowsOf t k)) = 0
        then .str ""
        else .num (round2 (specSumCol (stripHeaders t).cols c (groupRowsOf t k)))) ∧
    cellOf (specFc t) (subRowOf t k) "TAXABLE" =
      .num (round2 (specSumCol (stripHeaders t).cols "TAXABLE" (groupRowsOf t k))) ∧
    cellOf (specFc t) (subRowOf t k) "NETAMOUNT" =
      .num (round2 (specSumCol (stripHeaders t).cols "NETAMOUNT" (groupRowsOf t k))) ∧
    ("TAXPER" ∈ specFc t → cellOf (specFc t) (subRowOf t k) "TAXPER" = .str "") ∧
    cellOf (specFc t) (subRowOf t k) "Party" = .str k.1 ∧
    cellOf (specFc t) (subRowOf t k) "GSTIN" = .str k.2 ∧
    (∀ c ∈ specFc t,
      c ∉ (["Party", "GSTIN", "TAXABLE", "IGST", "CGST", "SGST", "NETAMOUNT",
        "TAXPER"] : List String) →
      cellOf (specFc t) (subRowOf t k) c = .str "") := by
  have he : res = specOutput t :=
    Except.ok.inj (hres.symm.trans (summarize_eq_spec t hwf hnd hP hG))
  subst he
  refine ⟨?_, ?_, ?_, ?_, ?_, ?_, ?_, ?_⟩
  · show subRowOf t k ∈ (specOutput t).rows
    unfold specOutput subRowOf groupRowsOf
    dsimp only
    exact List.mem_flatMap.mpr
      ⟨k, hk, List.mem_append_right _ (List.mem_singleton.mpr rfl)⟩
  · intro c hc
    have hcn : c ∈ num_cols := by
      fin_cases hc <;> decide
    unfold subRowOf specSubtotalRow
    rw [cellOf_map_cols, if_pos (num_mem_specFc hcn)]
    fin_cases hc <;> simp
  · unfold subRowOf specSubtotalRow
    rw [cellOf_map_cols, if_pos (num_mem_specFc (by decide))]
    simp
  · unfold subRowOf specSubtotalRow
    rw [cellOf_map_cols, if_pos (num_mem_specFc (by decide))]
    simp
  · intro hT
    unfold subRowOf specSubtotalRow
    rw [cellOf_map_cols, if_pos hT]
    simp
  · unfold subRowOf specSubtotalRow
    rw [cellOf_map_cols, if_pos (party_mem_specFc hP)]
    simp
  · unfold subRowOf specSubtotalRow
    rw [cellOf_map_cols, if_pos (gstin_mem_specFc hG)]
    simp
  · intro c hcf hcl
    unfold subRowOf specSubtotalRow
    rw [cellOf_map_cols, if_pos hcf]
    simp only [List.mem_cons, List.not_mem_nil, or_false, not_or] at hcl
    obtain ⟨h1, h2, h3, h4, h5, h6, h7, h8⟩ := hcl
    simp [h1, h2, h3, h4, h5, h6, h7, h8]

def c5wT : Table :=
  ⟨["Party", "GSTIN", "TAXPER", "Ref"],
   [[.str "ASIAN PAINTS", .str "G9", .num 18, .str "inv1"]]⟩

/-- C5 witness: a one-group table with a `TAXPER` column and an extra
`Ref` column; `IGST` sums to zero (blanked) while `TAXABLE` and
`NETAMOUNT` show 0.0, `TAXPER` and `Ref` are blanked. -/
theorem c5_subtotal_witness :
    subRowOf c5wT ("ASIAN", "G9") ∈ (specOutput c5wT).rows ∧
    cellOf (specFc c5wT) (subRowOf c5wT ("ASIAN", "G9")) "IGST" = .str "" ∧
    cellOf (specFc c5wT) (subRowOf c5wT ("ASIAN", "G9")) "TAXABLE" = .num 0 ∧
    cellOf (specFc c5wT) (subRowOf c5wT ("ASIAN", "G9")) "TAXPER" = .str "" ∧
    cellOf (specFc c5wT) (subRowOf c5wT ("ASIAN", "G9")) "Ref" = .str "" := by
  have h := c5_subtotal c5wT (by decide) (by decide) (by decide) (by decide)
    (specOutput c5wT) (by with_unfolding_all rfl) ("ASIAN", "G9")
    (by with_unfolding_all decide)
  refine ⟨h.1, ?_, ?_, ?_, ?_⟩
  · rw [h.2.1 "IGST" (by decide)]
    with_unfolding_all decide
  · rw [h.2.2.1]
    with_unfolding_all decide
  · exact h.2.2.2.2.1 (by decide)
  · exact h.2.2.2.2.2.2.2 "Ref" (by decide) (by decide)

def c8xT : Table := ⟨["Party", "GSTIN"], [[.str "XY", .str "G"]]⟩

/-- C8, counterexample: on a table with only the two required columns the
claim predicts output columns `["Party", "GSTIN"]`; the transform's
output also contains the five appended designated numeric columns. -/
theorem c8_counterexample :
    (summarize_df c8xT).toOption.map Table.cols ≠ some ["Party", "GSTIN"] := by
  with_unfolding_all decide

/-- C8 (amended): the output column list is the trimmed input columns in
their input order with the temporary `Party_Short` column excluded,
followed by those designated numeric columns absent from the input,
appended in the canonical order TAXABLE, IGST, CGST, SGST, NETAMOUNT.
(The amendment: the claim said no columns are added even when designated
numeric columns are absent; the code appends each absent one.) -/
theorem c8_columns (t : Table) (hwf : t.WF) (hnd : (stripHeaders t).cols.Nodup)
    (hP : "Party" ∈ (stripHeaders t).cols) (hG : "GSTIN" ∈ (stripHeaders t).cols)
    (res : Table) (h : summarize_df t = .ok res) :
    res.cols = (stripHeaders t).cols.filter (· ≠ "Party_Short") ++
      missingNum (stripHeaders t).cols := by
  have he : res = specOutput t :=
    Except.ok.inj (h.symm.trans (summarize_eq_spec t hwf hnd hP hG))
  have hc : (specOutput t).cols = specFc t := rfl
  rw [he, hc, specFc_eq_filter_append]

def c8wT : Table :=
  ⟨[" Party ", "GSTIN", "SGST", "Party_Short"],
   [[.str "A", .str "G", .num 1, .str "junk"]]⟩

/-- C8 witness: header trimming, a present numeric column, and a
pre-existing `Party_Short` column (which is excluded); the four absent
numeric columns are appended in canonical order. -/
theorem c8_columns_witness :
    (specOutput c8wT).cols =
      ["Party", "GSTIN", "SGST", "TAXABLE", "IGST", "CGST", "NETAMOUNT"] ∧
    (specOutput c8wT).cols = (stripHeaders c8wT).cols.filter (· ≠ "Party_Short") ++
      missingNum (stripHeaders c8wT).cols :=
  ⟨by with_unfolding_all decide,
   c8_columns c8wT (by decide) (by decide) (by decide) (by decide)
     (specOutput c8wT) (by with_unfolding_all rfl)⟩

def c9xT : Table := ⟨["Party", "GSTIN"], [[.str "AB", .str "G"]]⟩

/-- C9, counterexample: `summarize_df` mutates the caller's table —
after the call the input table has gained the five numeric columns and a
`Party_Short` column, so its state differs from what was passed in. -/
theorem c9_counterexample : inputStateAfter c9xT ≠ c9xT := by
  with_unfolding_all decide

/-- C9 (amended): `summarize_df`'s output is a freshly built table and a
function of the input alone, but the call does not leave the caller's
table unchanged: it strips the headers and mutates the table in place —
appending the absent designated numeric columns and `Party_Short`,
coercing the designated numeric cells, and rewriting `GSTIN` and
`Party_Short` — while every cell outside those columns is left unchanged
(the final branch of `procCellSpec`), so invocations on distinct tables
still cannot interfere. -/
theorem c9_mutation (t : Table) (hwf : t.WF)
    (hP : "Party" ∈ (stripHeaders t).cols) (hG : "GSTIN" ∈ (stripHeaders t).cols) :
    (inputStateAfter t).cols =
      (stripHeaders t).cols ++ missingNum (stripHeaders t).cols ++
        (if "Party_Short" ∈ (stripHeaders t).cols then [] else ["Party_Short"]) ∧
    (inputStateAfter t).rows.length = t.rows.length ∧
    (∀ j, j < t.rows.length → ∀ c,
      cellOf (inputStateAfter t).cols ((inputStateAfter t).rows.getD j []) c =
        procCellSpec (stripHeaders t).cols (t.rows.getD j []) c) := by
  refine ⟨inputStateAfter_cols t hP hG, ?_, ?_⟩
  · rw [inputStateAfter_pos t hP hG, processTable_rows, List.length_map]
  · intro j hj c
    rw [inputStateAfter_pos t hP hG, processTable_rows,
      getD_map_lt (procRowFn (stripHeaders t).cols) hj [] []]
    exact processTable_cell t hwf _ (getD_mem_of_lt hj []) c

def c9wT : Table :=
  ⟨["Party", "GSTIN", "Extra"], [[.str "ASIAN PAINTS", .str "G", .str "keep"]]⟩

/-- C9 witness: after the call the input table has the appended columns,
while the unrelated `Extra` cell is untouched. -/
theorem c9_mutation_witness :
    (inputStateAfter c9wT).cols =
      ["Party", "GSTIN", "Extra", "TAXABLE", "IGST", "CGST", "SGST", "NETAMOUNT",
       "Party_Short"] ∧
    cellOf (inputStateAfter c9wT).cols ((inputStateAfter c9wT).rows.getD 0 [])
      "Extra" = .str "keep" := by
  have h := c9_mutation c9wT (by decide) (by decide) (by decide)
  constructor
  · rw [h.1]
    decide
  · rw [h.2.2 0 (by decide) "Extra"]
    decide

/-- C10: a row whose GSTIN cell's string form is exactly `"nan"` gets
the group key (resolved short name, ""), and it shares its group key
with every row of the same resolved party whose normalized GSTIN is
empty.  `groupKeys` is the per-row key list `summarize_df` groups by. -/
theorem c10_nan_gstin (t : Table) (hwf : t.WF) (j : Nat) (hj : j < t.rows.length)
    (hnan : pyStr (cellOf (stripHeaders t).cols (t.rows.getD j []) "GSTIN") = "nan") :
    (groupKeys t).getD j ("", "") =
      (determine_party_short (cellOf (stripHeaders t).cols (t.rows.getD j []) "Party"),
        "") ∧
    (∀ j', j' < t.rows.length →
      gstinStr (cellOf (stripHeaders t).cols (t.rows.getD j' []) "GSTIN") = "" →
      determine_party_short (cellOf (stripHeaders t).cols (t.rows.getD j' []) "Party") =
        determine_party_short (cellOf (stripHeaders t).cols (t.rows.getD j []) "Party") →
      (groupKeys t).getD j' ("", "") = (groupKeys t).getD j ("", "")) := by
  have hkeys : groupKeys t = t.rows.map (inKey (stripHeaders t).cols) :=
    keysOf_processTable t hwf
  have hgst : gstinStr (cellOf (stripHeaders t).cols (t.rows.getD j []) "GSTIN") = "" := by
    show (if pyStr (cellOf (stripHeaders t).cols (t.rows.getD j []) "GSTIN") = "nan"
      then "" else pyStr (cellOf (stripHeaders t).cols (t.rows.getD j []) "GSTIN")) = ""
    rw [if_pos hnan]
  have hgetj : (groupKeys t).getD j ("", "") =
      inKey (stripHeaders t).cols (t.rows.getD j []) := by
    rw [hkeys, getD_map_lt (inKey (stripHeaders t).cols) hj ("", "") []]
  constructor
  · rw [hgetj]
    unfold inKey
    rw [hgst]
  · intro j' hj' hg' hp'
    have hgetj' : (groupKeys t).getD j' ("", "") =
        inKey (stripHeaders t).cols (t.rows.getD j' []) := by
      rw [hkeys, getD_map_lt (inKey (stripHeaders t).cols) hj' ("", "") []]
    rw [hgetj, hgetj']
    unfold inKey
    rw [hgst, hg', hp']

def c10wT : Table :=
  ⟨["Party", "GSTIN"],
   [[.str "FOO LTD", Value.na], [.str "FOO PVT", .str ""]]⟩

/-- C10 witness: a NaN GSTIN (string form `"nan"`) row and an
empty-GSTIN row of the same resolved party (`"FOO"`) get the same
group key `("FOO", "")`. -/
theorem c10_nan_gstin_witness :
    (groupKeys c10wT).getD 0 ("", "") =
      (determine_party_short
        (cellOf (stripHeaders c10wT).cols (c10wT.rows.getD 0 []) "Party"), "") ∧
    (groupKeys c10wT).getD 1 ("", "") = (groupKeys c10wT).getD 0 ("", "") := by
  have h := c10_nan_gstin c10wT (by decide) 0 (by decide) (by decide)
  exact ⟨h.1, h.2 1 (by decide) (by decide) (by decide)⟩
